import Mathlib

/-!
Verification of the prompts-mcp-server design against its implementation.

The embedding models JS strings as lists of Unicode code points (`Str`),
the prompts directory as an association list from file name to optional
content (`none` = file present but unreadable), and the metadata cache as
an association list mirroring a JS `Map` (insertion order, unique keys,
`set` replaces in place, `delete` removes).
-/

namespace Prompts

/-- A JS string, modelled as its list of code points. -/
abbrev Str := List Nat

/-- Code points of a Lean string literal. -/
def str (s : String) : Str := s.data.map Char.toNat

/- ===== Filename codec (src/fileOperations: sanitizeFileName) ===== -/

/-- Does the code point match the regex class `[a-z0-9-_]` with the `i` flag
(i.e. `[a-zA-Z0-9-_]`)?  Mirrors `/[^a-z0-9-_]/gi`. -/
def isSafeCode (n : Nat) : Bool :=
  (97 ≤ n && n ≤ 122) || (65 ≤ n && n ≤ 90) || (48 ≤ n && n ≤ 57) || n == 45 || n == 95

/-- One step of `name.replace(/[^a-z0-9-_]/gi, '_')`: unsafe code points become `_` (95). -/
def replaceUnsafe (n : Nat) : Nat := if isSafeCode n then n else 95

/-- `String.prototype.toLowerCase` on the code points this program ever lowercases
(the post-replacement string is entirely ASCII `[a-zA-Z0-9-_]`). -/
def toLowerCode (n : Nat) : Nat := if 65 ≤ n && n ≤ 90 then n + 32 else n

/-- `sanitizeFileName(name) { return name.replace(/[^a-z0-9-_]/gi, '_').toLowerCase(); }` -/
def sanitizeFileName (s : Str) : Str := (s.map replaceUnsafe).map toLowerCode

lemma isSafeCode_iff (n : Nat) :
    isSafeCode n = true ↔
      ((97 ≤ n ∧ n ≤ 122) ∨ (65 ≤ n ∧ n ≤ 90) ∨ (48 ≤ n ∧ n ≤ 57) ∨ n = 45 ∨ n = 95) := by
  simp [isSafeCode, Bool.or_eq_true, Bool.and_eq_true, decide_eq_true_eq, or_assoc]

lemma sanitizeCode_pointwise (n : Nat) :
    toLowerCode (replaceUnsafe n) = if isSafeCode n then toLowerCode n else 95 := by
  by_cases h : isSafeCode n
  · simp [replaceUnsafe, h]
  · have : replaceUnsafe n = 95 := by simp [replaceUnsafe, h]
    rw [this, if_neg h]
    decide

lemma toLowerCode_safe (n : Nat) (h : isSafeCode n = true) :
    isSafeCode (toLowerCode n) = true ∧ toLowerCode (toLowerCode n) = toLowerCode n := by
  rw [isSafeCode_iff] at h
  unfold toLowerCode
  by_cases h2 : 65 ≤ n ∧ n ≤ 90
  · have hc : (decide (65 ≤ n) && decide (n ≤ 90)) = true := by
      simp [h2.1, h2.2]
    rw [hc]
    simp only [if_true]
    constructor
    · rw [isSafeCode_iff]; omega
    · have hl : (decide (65 ≤ n + 32) && decide (n + 32 ≤ 90)) = false := by
        simp only [Bool.and_eq_false_iff, decide_eq_false_iff_not]; omega
      rw [hl]; simp
  · have hc : (decide (65 ≤ n) && decide (n ≤ 90)) = false := by
      simp only [Bool.and_eq_false_iff, decide_eq_false_iff_not]; omega
    rw [hc]
    simp only [Bool.false_eq_true, if_false]
    refine ⟨by rw [isSafeCode_iff]; omega, ?_⟩
    rw [hc]; simp

lemma sanitizeCode_idem (n : Nat) :
    toLowerCode (replaceUnsafe (toLowerCode (replaceUnsafe n))) = toLowerCode (replaceUnsafe n) := by
  by_cases h : isSafeCode n
  · have h1 : replaceUnsafe n = n := by simp [replaceUnsafe, h]
    rw [h1]
    have h2 : replaceUnsafe (toLowerCode n) = toLowerCode n := by
      simp [replaceUnsafe, (toLowerCode_safe n h).1]
    rw [h2, (toLowerCode_safe n h).2]
  · have h1 : replaceUnsafe n = 95 := by simp [replaceUnsafe, h]
    rw [h1]
    decide

lemma sanitizeFileName_map (s : Str) :
    sanitizeFileName s = s.map (fun n => toLowerCode (replaceUnsafe n)) := by
  simp [sanitizeFileName, List.map_map, Function.comp_def]

/-- `sanitizeFileName` is idempotent: its output only contains code points in
`[a-z0-9-_]`, which the replacement and lowercasing both leave alone. -/
lemma sanitizeFileName_idem (s : Str) :
    sanitizeFileName (sanitizeFileName s) = sanitizeFileName s := by
  rw [sanitizeFileName_map, sanitizeFileName_map, List.map_map]
  exact List.map_congr_left (fun n _ => sanitizeCode_idem n)

/-- C7: `encode` (sanitizeFileName) lowercases its input and replaces every
character outside `[a-z0-9-_]` (matched case-insensitively) with `_`;
in particular `encode("Hello World!") = "hello_world_"`. -/
theorem sanitizeFileName_characterization :
    sanitizeFileName (str "Hello World!") = str "hello_world_" ∧
    ∀ s : Str, sanitizeFileName s = s.map (fun n => if isSafeCode n then toLowerCode n else 95) := by
  constructor
  · decide
  · intro s
    rw [sanitizeFileName_map]
    exact List.map_congr_left (fun n _ => sanitizeCode_pointwise n)

/-- C8 counterexample: the claim "there exists an input `x` with
`encode(encode(x)) ≠ encode(x)`" is false — no such input exists. -/
theorem sanitizeFileName_not_idempotent_refuted :
    ¬ ∃ x : Str, sanitizeFileName (sanitizeFileName x) ≠ sanitizeFileName x :=
  fun ⟨x, hx⟩ => hx (sanitizeFileName_idem x)

/-- C8 amended: `encode` is idempotent on every input, including strings that
already contain `_` (the concrete test `encode("Hello World!") = "hello_world_"`
is settled with C7). -/
theorem sanitizeFileName_idempotent :
    ∀ x : Str, sanitizeFileName (sanitizeFileName x) = sanitizeFileName x :=
  sanitizeFileName_idem

/- ===== Filesystem model ===== -/

/-- The prompts directory: file name ↦ content; `none` content means the entry
exists in the directory listing but its bytes cannot be read (e.g. it is a
directory named `*.md`, as in the repository's own tests). -/
abbrev Fs := List (Str × Option Str)

/-- `fs.access` / `fs.unlink` succeed iff the entry exists. -/
def fsExists (fs : Fs) (fileName : Str) : Bool :=
  (fs.find? (fun p => p.1 == fileName)).isSome

/-- `fs.readFile`: `some content` on success, `none` when the read throws. -/
def fsRead (fs : Fs) (fileName : Str) : Option Str :=
  (fs.find? (fun p => p.1 == fileName)).bind (fun p => p.2)

/-- `fs.writeFile`: whole-file replace. -/
def fsWrite (fs : Fs) (fileName content : Str) : Fs :=
  (fileName, some content) :: fs.filter (fun p => !(p.1 == fileName))

/-- `fs.unlink` (the success case). -/
def fsErase (fs : Fs) (fileName : Str) : Fs :=
  fs.filter (fun p => !(p.1 == fileName))

/-- The storage extension `".md"` (code points of `.`, `m`, `d`). -/
def mdExt : Str := str ".md"

/-- `fileName.endsWith('.md')`. -/
def endsWithMd (fileName : Str) : Bool := mdExt.isSuffixOf fileName

/-- `s.replace(pat, '')` for a string pattern: JS `String.prototype.replace`
with a string first argument removes only the FIRST occurrence. -/
def replaceFirst (pat : Str) : Str → Str
  | [] => []
  | c :: rest =>
    if pat.isPrefixOf (c :: rest) then (c :: rest).drop pat.length
    else c :: replaceFirst pat rest

/- ===== Document store (src/fileOperations.js) ===== -/

/-- Error/result text `Prompt "${name}" not found`. -/
def notFoundMsg (name : Str) : Str :=
  str "Prompt \"" ++ name ++ str "\" not found"

/-- The cache is modelled below; the store state pairs the directory with the
cache map so that store operations show exactly which half they touch. -/
structure PromptInfo where
  name : Str
  metadata : List (Str × Str)
  preview : Str
deriving DecidableEq

/-- The in-memory index: a JS `Map` (unique keys, insertion order). -/
abbrev Cache := List (Str × PromptInfo)

/-- Combined server state: the prompts directory plus the metadata cache. -/
structure St where
  fs : Fs
  cache : Cache
deriving DecidableEq

/-- `savePrompt(name, content)`: sanitize the name, append `.md`, overwrite the
file wholesale, return the storage filename.  Touches only the directory,
never the cache. -/
def savePrompt (st : St) (name content : Str) : Str × St :=
  let fileName := sanitizeFileName name ++ mdExt
  (fileName, { st with fs := fsWrite st.fs fileName content })

/-- `readPrompt(name)`: sanitize the name, read the file directly from disk;
a failed read becomes `Prompt "name" not found`. -/
def readPrompt (st : St) (name : Str) : Except Str Str :=
  let fileName := sanitizeFileName name ++ mdExt
  match fsRead st.fs fileName with
  | some content => .ok content
  | none => .error (notFoundMsg name)

/-- `deletePrompt(name)`: sanitize the name, `unlink` the file; when the file
is absent the unlink throws and the catch block rethrows NotFound.  The cache
is never touched by this operation. -/
def deletePrompt (st : St) (name : Str) : Except Str Bool × St :=
  let fileName := sanitizeFileName name ++ mdExt
  if fsExists st.fs fileName then (.ok true, { st with fs := fsErase st.fs fileName })
  else (.error (notFoundMsg name), st)

lemma fsRead_fsWrite_self (fs : Fs) (k v : Str) : fsRead (fsWrite fs k v) k = some v := by
  simp [fsRead, fsWrite, List.find?]

/-- C2: for every name and content, `savePrompt(name, c)` followed by
`readPrompt` on the canonical post-sanitization name (`decode(encode(name))`,
i.e. the sanitized file stem) returns exactly `c`. -/
theorem save_then_read_roundtrip (st : St) (name content : Str) :
    readPrompt (savePrompt st name content).2 (sanitizeFileName name) = .ok content := by
  simp only [readPrompt, savePrompt, sanitizeFileName_idem, fsRead_fsWrite_self]

/- ===== add_prompt tool handler (src/tools.ts: PromptTools.handleAddPrompt) ===== -/

/-- Success text `Prompt "${name}" saved as ${fileName}`. -/
def savedMsg (name fileName : Str) : Str :=
  str "Prompt \"" ++ name ++ str "\" saved as " ++ fileName

/-- `handleAddPrompt`: `if (!args.content) throw new Error('Content is required
for add_prompt')` — the empty string is falsy in JS — then `savePrompt` and a
success message carrying the storage filename.  The thrown error is caught by
`handleToolCall` and surfaced as an error result. -/
def handleAddPrompt (st : St) (name content : Str) : Except Str Str × St :=
  if content.isEmpty then (.error (str "Content is required for add_prompt"), st)
  else
    let r := savePrompt st name content
    (.ok (savedMsg name r.1), r.2)

/-- C5 counterexample: `add_prompt` with empty content fails with a validation
error even though no disk I/O failed. -/
theorem handleAddPrompt_empty_content_fails :
    (handleAddPrompt ⟨[], []⟩ (str "x") []).1 = .error (str "Content is required for add_prompt")
      ∧ ∀ r : Str, (handleAddPrompt ⟨[], []⟩ (str "x") []).1 ≠ .ok r := by
  exact ⟨rfl, fun r h => Except.noConfusion h⟩

/-- C5 amended: for every name and every NON-empty content, `add_prompt`
succeeds and returns the storage filename; empty (falsy) content is rejected
with `Content is required for add_prompt` before any disk access. -/
theorem handleAddPrompt_nonempty_succeeds (st : St) (name content : Str)
    (h : content ≠ []) :
    handleAddPrompt st name content =
      (.ok (savedMsg name (sanitizeFileName name ++ mdExt)),
       { st with fs := fsWrite st.fs (sanitizeFileName name ++ mdExt) content }) := by
  unfold handleAddPrompt savePrompt
  rw [if_neg (by simpa [List.isEmpty_iff] using h)]

/-- Witness for C5's amended theorem at a concrete input. -/
theorem handleAddPrompt_nonempty_succeeds_witness :
    (str "hi" ≠ []) ∧
    handleAddPrompt ⟨[], []⟩ (str "My Prompt") (str "hi") =
      (.ok (savedMsg (str "My Prompt") (sanitizeFileName (str "My Prompt") ++ mdExt)),
       { fs := fsWrite [] (sanitizeFileName (str "My Prompt") ++ mdExt) (str "hi"), cache := [] }) :=
  ⟨by decide, handleAddPrompt_nonempty_succeeds ⟨[], []⟩ (str "My Prompt") (str "hi") (by decide)⟩

/-- C6: deleting a name whose encoded file does not exist fails with NotFound
and returns the state — directory and cache map — exactly as it was. -/
theorem deletePrompt_absent_notfound (st : St) (name : Str)
    (h : fsExists st.fs (sanitizeFileName name ++ mdExt) = false) :
    deletePrompt st name = (.error (notFoundMsg name), st) := by
  simp only [deletePrompt, h]
  simp

/-- Witness for C6 at a concrete state with a non-empty directory and cache. -/
theorem deletePrompt_absent_notfound_witness :
    (fsExists [(str "other.md", some (str "body"))] (sanitizeFileName (str "ghost") ++ mdExt) = false) ∧
    deletePrompt ⟨[(str "other.md", some (str "body"))], [(str "other", ⟨str "other", [], str "p..."⟩)]⟩ (str "ghost")
      = (.error (notFoundMsg (str "ghost")),
         ⟨[(str "other.md", some (str "body"))], [(str "other", ⟨str "other", [], str "p..."⟩)]⟩) :=
  ⟨by decide,
   deletePrompt_absent_notfound
     ⟨[(str "other.md", some (str "body"))], [(str "other", ⟨str "other", [], str "p..."⟩)]⟩
     (str "ghost") (by decide)⟩

/- ===== Preview computation (src/cache.ts: loadPromptMetadata) ===== -/

/-- The code points `String.prototype.trim` strips (ECMAScript WhiteSpace and
LineTerminator). -/
def isJsWs (n : Nat) : Bool :=
  n == 9 || n == 10 || n == 11 || n == 12 || n == 13 || n == 32 || n == 160 ||
  n == 5760 || (8192 ≤ n && n ≤ 8202) || n == 8232 || n == 8233 || n == 8239 ||
  n == 8287 || n == 12288 || n == 65279

/-- `s.trim()`. -/
def jsTrim (l : Str) : Str :=
  ((l.dropWhile isJsWs).reverse.dropWhile isJsWs).reverse

/-- One step of `.replace(/\n/g, ' ')`. -/
def collapseNl (n : Nat) : Nat := if n == 10 then 32 else n

/-- `parsed.content.substring(0, 100).replace(/\n/g, ' ').trim() + '...'`. -/
def previewOf (body : Str) : Str :=
  jsTrim ((body.take 100).map collapseNl) ++ str "..."

/- ===== Metadata extractor =====

Modelled from the spec: the structured-header parser (the `gray-matter`
third-party call `matter(content)`) is not part of src/; the spec treats it as
a pure function `extract(rawBytes) -> (metadata, body)` that "fails gracefully
— if the header delimiter is malformed, treat the entire byte stream as body
with empty metadata", with the header "a text block delimited by a fixed
marker line at the start of the file, containing key-value pairs". -/

/-- Split on the newline code point (10). -/
def splitLines : Str → List Str
  | [] => [[]]
  | c :: rest =>
    match splitLines rest with
    | [] => [[c]]
    | h :: t => if c == 10 then [] :: h :: t else (c :: h) :: t

/-- The fixed header delimiter line `---`. -/
def delim : Str := str "---"

/-- Modelled from the spec: parse one `key: value` header line; a line with no
colon is unparsable. -/
def parseKV (l : Str) : Option (Str × Str) :=
  if l.contains 58 then
    some (l.takeWhile (fun c => !(c == 58)), (l.dropWhile (fun c => !(c == 58))).tail)
  else none

/-- Modelled from the spec: try to parse the structured header; `none` when the
header is absent, its closing delimiter is missing, or a header line is
unparsable. -/
def parseHeader (content : Str) : Option (List (Str × Str) × Str) :=
  match splitLines content with
  | [] => none
  | first :: rest =>
    if first == delim then
      match rest.findIdx? (fun l => l == delim) with
      | none => none
      | some j =>
        ((rest.take j).mapM parseKV).map
          (fun pairs => (pairs, List.intercalate [10] (rest.drop (j + 1))))
    else none

/-- Modelled from the spec: `extract(rawBytes) -> (metadata, body)`; any failure
of `parseHeader` degrades to empty metadata with the whole input as body. -/
def extract (content : Str) : List (Str × Str) × Str :=
  (parseHeader content).getD ([], content)

/-- The first line is the header delimiter, i.e. a structured header is present. -/
def hasHeaderDelim (content : Str) : Bool :=
  match splitLines content with
  | [] => false
  | first :: _ => first == delim

/-- A structured header is present but unparsable. -/
def malformedHeader (content : Str) : Bool :=
  hasHeaderDelim content && (parseHeader content).isNone

/-- An extractor as called by `loadPromptMetadata`: a JS function call that
either returns `(metadata, body)` or throws. -/
abbrev Extractor := Str → Except Unit (List (Str × Str) × Str)

/-- The spec-modelled extractor: total, never throws. -/
def specExtractor : Extractor := fun content => .ok (extract content)

/- ===== Metadata cache (src/cache.ts: PromptCache) ===== -/

/-- The canonical name: `fileName.replace('.md', '')` (first occurrence only). -/
def canonicalName (fileName : Str) : Str := replaceFirst mdExt fileName

/-- `loadPromptMetadata(fileName)`: read the file, run the extractor, build the
record; any throw (unreadable file, extractor failure) is caught and becomes
`null`. -/
def loadPromptMetadata (ext : Extractor) (fs : Fs) (fileName : Str) : Option PromptInfo :=
  match fsRead fs fileName with
  | none => none
  | some content =>
    match ext content with
    | .error _ => none
    | .ok (data, body) =>
      some { name := canonicalName fileName, metadata := data, preview := previewOf body }

/-- `Map.prototype.get`. -/
def getPrompt (c : Cache) (name : Str) : Option PromptInfo :=
  (c.find? (fun p => p.1 == name)).map (fun p => p.2)

/-- `Map.prototype.set`: replace in place if the key exists, else append. -/
def cacheSet (c : Cache) (k : Str) (v : PromptInfo) : Cache :=
  if (c.find? (fun p => p.1 == k)).isSome then
    c.map (fun p => if p.1 == k then (k, v) else p)
  else c ++ [(k, v)]

/-- `Map.prototype.delete`. -/
def cacheDelete (c : Cache) (k : Str) : Cache :=
  c.filter (fun p => !(p.1 == k))

/-- `updateCacheForFile(fileName)`: ignore non-`.md` names, reload the single
file, upsert on success, leave the cache untouched on failure. -/
def updateCacheForFile (ext : Extractor) (fs : Fs) (c : Cache) (fileName : Str) : Cache :=
  if endsWithMd fileName then
    match loadPromptMetadata ext fs fileName with
    | some info => cacheSet c info.name info
    | none => c
  else c

/-- `removeFromCache(fileName)`: ignore non-`.md` names, delete the canonical
name's record. -/
def removeFromCache (c : Cache) (fileName : Str) : Cache :=
  if endsWithMd fileName then cacheDelete c (canonicalName fileName) else c

/-- `initializeCache()`: list the directory, keep `.md` names, discard the old
index entirely, and load every file (a failed load simply contributes
nothing). -/
def initializeCache (ext : Extractor) (fs : Fs) (_oldCache : Cache) : Cache :=
  ((fs.map Prod.fst).filter endsWithMd).foldl (fun c f => updateCacheForFile ext fs c f) []

/- ===== Cache map lemmas ===== -/

lemma find?_cons_key_pos (pr : Str × PromptInfo) (l : List (Str × PromptInfo)) (n : Str)
    (h : (pr.1 == n) = true) :
    List.find? (fun q => q.1 == n) (pr :: l) = some pr :=
  List.find?_cons_of_pos l h

lemma find?_cons_key_neg (pr : Str × PromptInfo) (l : List (Str × PromptInfo)) (n : Str)
    (h : (pr.1 == n) = false) :
    List.find? (fun q => q.1 == n) (pr :: l) = List.find? (fun q => q.1 == n) l :=
  List.find?_cons_of_neg l (by simp [h])

lemma find?_map_replace (c : Cache) (k : Str) (v : PromptInfo) :
    (c.map (fun p => if p.1 == k then (k, v) else p)).find? (fun p => p.1 == k)
      = if (c.find? (fun p => p.1 == k)).isSome then some (k, v) else none := by
  induction c with
  | nil => simp
  | cons p rest ih =>
    cases hp : (p.1 == k) with
    | true =>
      have hhead : ((if p.1 == k then (k, v) else p) : Str × PromptInfo) = (k, v) := if_pos hp
      rw [List.map_cons, hhead, find?_cons_key_pos _ _ _ (by simp), find?_cons_key_pos _ _ _ hp]
      simp
    | false =>
      have hhead : ((if p.1 == k then (k, v) else p) : Str × PromptInfo) = p :=
        if_neg (by simp [hp])
      rw [List.map_cons, hhead, find?_cons_key_neg _ _ _ hp, find?_cons_key_neg _ _ _ hp, ih]

lemma getPrompt_cacheSet_self (c : Cache) (k : Str) (v : PromptInfo) :
    getPrompt (cacheSet c k v) k = some v := by
  unfold getPrompt cacheSet
  by_cases h : (c.find? (fun p => p.1 == k)).isSome
  · rw [if_pos h, find?_map_replace, if_pos h]
    rfl
  · rw [if_neg h, List.find?_append]
    have hnone : c.find? (fun p => p.1 == k) = none := by
      cases hf : c.find? (fun p => p.1 == k) with
      | none => rfl
      | some x => rw [hf] at h; simp at h
    rw [hnone]
    simp

lemma find?_map_replace_ne (c : Cache) (k n : Str) (v : PromptInfo) (hkn : (k == n) = false) :
    (c.map (fun p => if p.1 == k then (k, v) else p)).find? (fun p => p.1 == n)
      = c.find? (fun p => p.1 == n) := by
  induction c with
  | nil => simp
  | cons p rest ih =>
    cases hp : (p.1 == k) with
    | true =>
      have hp1 : p.1 = k := by simpa using hp
      have hhead : ((if p.1 == k then (k, v) else p) : Str × PromptInfo) = (k, v) := if_pos hp
      rw [List.map_cons, hhead, find?_cons_key_neg _ _ _ (by simpa using hkn),
        find?_cons_key_neg _ _ _ (by rw [hp1]; exact hkn), ih]
    | false =>
      have hhead : ((if p.1 == k then (k, v) else p) : Str × PromptInfo) = p :=
        if_neg (by simp [hp])
      rw [List.map_cons, hhead]
      cases hn : (p.1 == n) with
      | true => rw [find?_cons_key_pos _ _ _ hn, find?_cons_key_pos _ _ _ hn]
      | false => rw [find?_cons_key_neg _ _ _ hn, find?_cons_key_neg _ _ _ hn, ih]

lemma getPrompt_cacheSet_ne (c : Cache) (k n : Str) (v : PromptInfo) (hne : n ≠ k) :
    getPrompt (cacheSet c k v) n = getPrompt c n := by
  have hkn : (k == n) = false := beq_eq_false_iff_ne.mpr (fun h => hne h.symm)
  unfold getPrompt cacheSet
  by_cases h : (c.find? (fun p => p.1 == k)).isSome
  · rw [if_pos h, find?_map_replace_ne c k n v hkn]
  · rw [if_neg h, List.find?_append]
    have hsingle : (([(k, v)] : Cache).find? (fun p => p.1 == n)) = none := by
      simp [hkn]
    rw [hsingle, Option.or_none]

lemma getPrompt_cacheDelete_self (c : Cache) (k : Str) :
    getPrompt (cacheDelete c k) k = none := by
  unfold getPrompt cacheDelete
  have hnone : (c.filter (fun p => !(p.1 == k))).find? (fun p => p.1 == k) = none := by
    rw [List.find?_eq_none]
    intro x hx
    have hmem := (List.mem_filter.mp hx).2
    simp only [Bool.not_eq_eq_eq_not, Bool.not_true] at hmem
    simp [hmem]
  rw [hnone]
  rfl

lemma getPrompt_cacheDelete_ne (c : Cache) (k n : Str) (hne : n ≠ k) :
    getPrompt (cacheDelete c k) n = getPrompt c n := by
  have hkn : (k == n) = false := beq_eq_false_iff_ne.mpr (fun h => hne h.symm)
  unfold getPrompt cacheDelete
  congr 1
  induction c with
  | nil => simp
  | cons p rest ih =>
    cases hp : (p.1 == k) with
    | true =>
      have hp1 : p.1 = k := by simpa using hp
      rw [List.filter_cons_of_neg (by simp [hp]), ih,
        find?_cons_key_neg _ _ _ (by rw [hp1]; exact hkn)]
    | false =>
      rw [List.filter_cons_of_pos (by simp [hp])]
      cases hn : (p.1 == n) with
      | true => rw [find?_cons_key_pos _ _ _ hn, find?_cons_key_pos _ _ _ hn]
      | false => rw [find?_cons_key_neg _ _ _ hn, find?_cons_key_neg _ _ _ hn, ih]

lemma loadPromptMetadata_name (ext : Extractor) (fs : Fs) (f : Str) (info : PromptInfo)
    (h : loadPromptMetadata ext fs f = some info) : info.name = canonicalName f := by
  unfold loadPromptMetadata at h
  split at h
  · cases h
  · split at h
    · cases h
    · cases h; rfl

/- ===== Claims about previews, extraction and watcher events ===== -/

/-- C1 counterexample: the record cached for a file whose body is `"a\n"` has a
preview of length 4 — `trim()` strips the collapsed trailing newline — while
`min(100, len(body)) + 3 = 5`, so the claimed invariant fails. -/
theorem preview_length_counterexample :
    (loadPromptMetadata specExtractor [(str "p.md", some (str "a\n"))] (str "p.md")).map
        (fun i => i.preview.length) = some 4 ∧
    (extract (str "a\n")).2.length = 2 ∧
    min 100 2 + 3 = 5 ∧ (4 : Nat) ≠ 5 := by
  decide

/-- C1 amended: `preview` is the JS-trim of the newline-collapsed first 100
characters of the body plus the 3-character ellipsis; whenever that truncated
collapsed text carries no leading or trailing whitespace (so `trim()` is a
no-op) its length is exactly `min(100, len(body)) + 3` — in particular 53 for a
50-character body, and for a 500-character body the preview is the first 100
characters (newlines collapsed) plus the ellipsis. -/
theorem preview_length_amended (body : Str)
    (h : jsTrim ((body.take 100).map collapseNl) = (body.take 100).map collapseNl) :
    previewOf body = (body.take 100).map collapseNl ++ str "..." ∧
    (previewOf body).length = min 100 body.length + 3 := by
  have h3 : (str "...").length = 3 := by decide
  constructor
  · rw [previewOf, h]
  · rw [previewOf, h, List.length_append, h3, List.length_map, List.length_take]

/-- Witness for C1's amended theorem: a 50-character body yields a preview of
length `min 100 50 + 3 = 53`. -/
theorem preview_length_amended_witness :
    (jsTrim (((List.replicate 50 97 : Str).take 100).map collapseNl)
        = ((List.replicate 50 97 : Str).take 100).map collapseNl) ∧
    (previewOf (List.replicate 50 97)).length = min 100 (List.replicate 50 97 : Str).length + 3 :=
  ⟨by decide, (preview_length_amended (List.replicate 50 97) (by decide)).2⟩

/-- C3: a file whose structured header is present but unparsable still yields a
cached record with an empty metadata mapping — extraction degrades to "no
metadata" instead of failing, and the file is upserted rather than dropped. -/
theorem malformed_header_empty_metadata (fs : Fs) (c : Cache) (fileName content : Str)
    (h1 : malformedHeader content = true)
    (h2 : fsRead fs fileName = some content)
    (h3 : endsWithMd fileName = true) :
    extract content = ([], content) ∧
    loadPromptMetadata specExtractor fs fileName =
      some ⟨canonicalName fileName, [], previewOf content⟩ ∧
    getPrompt (updateCacheForFile specExtractor fs c fileName) (canonicalName fileName) =
      some ⟨canonicalName fileName, [], previewOf content⟩ := by
  have hparse : parseHeader content = none := by
    unfold malformedHeader at h1
    rcases Bool.and_eq_true_iff.mp h1 with ⟨-, hn⟩
    exact Option.isNone_iff_eq_none.mp hn
  have hext : extract content = ([], content) := by
    unfold extract
    rw [hparse]
    rfl
  have hok : specExtractor content = .ok ([], content) := by
    unfold specExtractor
    rw [hext]
  have hload : loadPromptMetadata specExtractor fs fileName =
      some ⟨canonicalName fileName, [], previewOf content⟩ := by
    unfold loadPromptMetadata
    simp only [h2, hok]
  refine ⟨hext, hload, ?_⟩
  have hstep : updateCacheForFile specExtractor fs c fileName
      = cacheSet c (canonicalName fileName) ⟨canonicalName fileName, [], previewOf content⟩ := by
    unfold updateCacheForFile
    simp only [h3, hload, if_true]
  rw [hstep]
  exact getPrompt_cacheSet_self c (canonicalName fileName) _

/-- Witness for C3 at a concrete malformed-header file. -/
theorem malformed_header_empty_metadata_witness :
    (malformedHeader (str "---\nbad\n---\nbody") = true) ∧
    (fsRead [(str "p.md", some (str "---\nbad\n---\nbody"))] (str "p.md")
        = some (str "---\nbad\n---\nbody")) ∧
    (endsWithMd (str "p.md") = true) ∧
    getPrompt (updateCacheForFile specExtractor
        [(str "p.md", some (str "---\nbad\n---\nbody"))] [] (str "p.md"))
        (canonicalName (str "p.md")) =
      some ⟨canonicalName (str "p.md"), [], previewOf (str "---\nbad\n---\nbody")⟩ :=
  ⟨by decide, by decide, by decide,
   (malformed_header_empty_metadata [(str "p.md", some (str "---\nbad\n---\nbody"))] []
     (str "p.md") (str "---\nbad\n---\nbody") (by decide) (by decide) (by decide)).2.2⟩

/-- C9: when a watcher add/change event's single-file reload fails,
`updateCacheForFile` leaves the cache map entirely unchanged, so any previously
cached record for that canonical name keeps being served. -/
theorem updateCacheForFile_failure_noop (ext : Extractor) (fs : Fs) (c : Cache) (fileName : Str)
    (h : loadPromptMetadata ext fs fileName = none) :
    updateCacheForFile ext fs c fileName = c ∧
    ∀ n, getPrompt (updateCacheForFile ext fs c fileName) n = getPrompt c n := by
  have he : updateCacheForFile ext fs c fileName = c := by
    unfold updateCacheForFile
    split
    · rw [h]
    · rfl
  exact ⟨he, fun n => by rw [he]⟩

/-- Witness for C9: the file is unreadable (missing), the previously cached
record survives. -/
theorem updateCacheForFile_failure_noop_witness :
    (loadPromptMetadata specExtractor [] (str "a.md") = none) ∧
    updateCacheForFile specExtractor [] [(str "a", ⟨str "a", [], str "old..."⟩)] (str "a.md")
      = [(str "a", ⟨str "a", [], str "old..."⟩)] :=
  ⟨by decide,
   (updateCacheForFile_failure_noop specExtractor []
     [(str "a", ⟨str "a", [], str "old..."⟩)] (str "a.md") (by decide)).1⟩

/-- C10: the cached canonical name removes only the FIRST `.md` occurrence
(`"a.md.b.md"` maps to `"a.b.md"`, not to the filename minus its extension
`"a.md.b"`); the add/change upsert and the unlink removal apply the same
transformation to the same filename, so an unlink removes exactly the record
the corresponding add created and touches no other key. -/
theorem unlink_removes_what_add_created (ext : Extractor) (fs : Fs) (c : Cache) (fileName : Str)
    (h : endsWithMd fileName = true) :
    canonicalName (str "a.md.b.md") = str "a.b.md" ∧
    canonicalName (str "a.md.b.md") ≠ (str "a.md.b.md").take ((str "a.md.b.md").length - 3) ∧
    getPrompt (removeFromCache (updateCacheForFile ext fs c fileName) fileName)
        (canonicalName fileName) = none ∧
    ∀ n, n ≠ canonicalName fileName →
      getPrompt (removeFromCache (updateCacheForFile ext fs c fileName) fileName) n
        = getPrompt c n := by
  have hrem : removeFromCache (updateCacheForFile ext fs c fileName) fileName
      = cacheDelete (updateCacheForFile ext fs c fileName) (canonicalName fileName) := by
    unfold removeFromCache
    rw [h]
    exact if_pos rfl
  refine ⟨by decide, by decide, ?_, ?_⟩
  · rw [hrem]
    exact getPrompt_cacheDelete_self _ _
  · intro n hn
    rw [hrem, getPrompt_cacheDelete_ne _ _ _ hn]
    unfold updateCacheForFile
    rw [h]
    cases hl : loadPromptMetadata ext fs fileName with
    | none => rfl
    | some info =>
      simp only
      have hname : info.name = canonicalName fileName := loadPromptMetadata_name ext fs fileName info hl
      rw [hname]
      exact getPrompt_cacheSet_ne c (canonicalName fileName) n info hn

/-- Witness for C10 at a concrete add-then-unlink on `t.md`. -/
theorem unlink_removes_what_add_created_witness :
    (endsWithMd (str "t.md") = true) ∧
    getPrompt (removeFromCache (updateCacheForFile specExtractor
        [(str "t.md", some (str "x"))] [(str "z", ⟨str "z", [], str "z..."⟩)] (str "t.md"))
        (str "t.md")) (canonicalName (str "t.md")) = none :=
  ⟨by decide,
   (unlink_removes_what_add_created specExtractor [(str "t.md", some (str "x"))]
     [(str "z", ⟨str "z", [], str "z..."⟩)] (str "t.md") (by decide)).2.2.1⟩

/- ===== C4: initializeCache size ===== -/

/-- Two distinct `.md` files whose canonical names collide: removing the first
`.md` occurrence maps both "a.md.mdx.md" and "a.m.mddx.md" to "a.mdx.md". -/
def collideFs : Fs :=
  [(str "a.md.mdx.md", some (str "x")), (str "a.m.mddx.md", some (str "x"))]

/-- C4 counterexample: on a directory of two loadable `.md` files with
colliding canonical names, the cache ends with 1 entry while the claimed
formula (extension-matching files minus unloadable ones) gives 2. -/
theorem initializeCache_size_counterexample :
    (initializeCache specExtractor collideFs []).length = 1 ∧
    ((collideFs.map Prod.fst).filter endsWithMd).length
      - (((collideFs.map Prod.fst).filter endsWithMd).filter
          (fun f => (loadPromptMetadata specExtractor collideFs f).isNone)).length = 2 ∧
    canonicalName (str "a.md.mdx.md") = canonicalName (str "a.m.mddx.md") ∧
    (1 : Nat) ≠ 2 := by
  decide

lemma cacheSet_absent (c : Cache) (k : Str) (v : PromptInfo)
    (h : c.find? (fun p => p.1 == k) = none) : cacheSet c k v = c ++ [(k, v)] := by
  unfold cacheSet
  rw [h]
  rfl

lemma foldl_update_length (ext : Extractor) (fs : Fs) (files : List Str) :
    ∀ (c : Cache),
      (∀ f ∈ files, endsWithMd f = true) →
      ((files.filter (fun f => (loadPromptMetadata ext fs f).isSome)).map canonicalName).Nodup →
      (∀ f ∈ files, (loadPromptMetadata ext fs f).isSome = true →
        c.find? (fun p => p.1 == canonicalName f) = none) →
      (files.foldl (fun c2 f => updateCacheForFile ext fs c2 f) c).length
        = c.length + (files.filter (fun f => (loadPromptMetadata ext fs f).isSome)).length := by
  induction files with
  | nil => intro c _ _ _; simp
  | cons f rest ih =>
    intro c hmd hnd habs
    have hf : endsWithMd f = true := hmd f (List.mem_cons_self f rest)
    rw [List.foldl_cons]
    cases hl : loadPromptMetadata ext fs f with
    | none =>
      have hstep : updateCacheForFile ext fs c f = c := by
        unfold updateCacheForFile
        simp only [hf, hl, if_true]
      have hfilter : (f :: rest).filter (fun g => (loadPromptMetadata ext fs g).isSome)
          = rest.filter (fun g => (loadPromptMetadata ext fs g).isSome) :=
        List.filter_cons_of_neg (by simp [hl])
      rw [hfilter] at hnd
      rw [hstep, hfilter]
      exact ih c (fun g hg => hmd g (List.mem_cons_of_mem f hg)) hnd
        (fun g hg hok => habs g (List.mem_cons_of_mem f hg) hok)
    | some info =>
      have hname : info.name = canonicalName f := loadPromptMetadata_name ext fs f info hl
      have hsome : (loadPromptMetadata ext fs f).isSome = true := by rw [hl]; rfl
      have habsf : c.find? (fun p => p.1 == canonicalName f) = none :=
        habs f (List.mem_cons_self f rest) hsome
      have hstep : updateCacheForFile ext fs c f = c ++ [(canonicalName f, info)] := by
        unfold updateCacheForFile
        simp only [hf, hl, if_true]
        rw [hname, cacheSet_absent c (canonicalName f) info habsf]
      have hfilter : (f :: rest).filter (fun g => (loadPromptMetadata ext fs g).isSome)
          = f :: rest.filter (fun g => (loadPromptMetadata ext fs g).isSome) :=
        List.filter_cons_of_pos (by simp [hl])
      rw [hfilter, List.map_cons] at hnd
      have hnotmem := (List.nodup_cons.mp hnd).1
      have hnd' := (List.nodup_cons.mp hnd).2
      have habs' : ∀ g ∈ rest, (loadPromptMetadata ext fs g).isSome = true →
          (c ++ [(canonicalName f, info)]).find? (fun p => p.1 == canonicalName g) = none := by
        intro g hg hok
        rw [List.find?_append, habs g (List.mem_cons_of_mem f hg) hok]
        have hgf : (canonicalName f == canonicalName g) = false := by
          rw [beq_eq_false_iff_ne]
          intro hEq
          exact hnotmem
            (hEq ▸ List.mem_map_of_mem canonicalName (List.mem_filter.mpr ⟨hg, hok⟩))
        simp [hgf]
      have hrec := ih (c ++ [(canonicalName f, info)])
        (fun g hg => hmd g (List.mem_cons_of_mem f hg)) hnd' habs'
      rw [hstep, hrec, List.length_append, hfilter, List.length_cons]
      simp
      omega

lemma length_filter_isSome_isNone (ext : Extractor) (fs : Fs) (l : List Str) :
    (l.filter (fun f => (loadPromptMetadata ext fs f).isSome)).length
      = l.length - (l.filter (fun f => (loadPromptMetadata ext fs f).isNone)).length := by
  induction l with
  | nil => rfl
  | cons f rest ih =>
    cases hl : loadPromptMetadata ext fs f with
    | none =>
      rw [List.filter_cons_of_neg (by simp [hl]), List.filter_cons_of_pos (by simp [hl])]
      simp only [List.length_cons]
      have hle : (rest.filter (fun f => (loadPromptMetadata ext fs f).isNone)).length
          ≤ rest.length := List.length_filter_le _ _
      omega
    | some info =>
      rw [List.filter_cons_of_pos (by simp [hl]), List.filter_cons_of_neg (by simp [hl])]
      simp only [List.length_cons]
      have hle : (rest.filter (fun f => (loadPromptMetadata ext fs f).isNone)).length
          ≤ rest.length := List.length_filter_le _ _
      omega

/-- C4 amended: after `initializeCache()` on a readable directory, the cache
size equals the number of extension-matching files minus those whose content
could not be loaded PROVIDED no two loadable `.md` files collide on the same
canonical name (without that proviso the size is the number of distinct
canonical names); no individual load failure fails initialization, and every
call fully replaces the previous index (the result is independent of the old
cache). -/
theorem initializeCache_size_amended (ext : Extractor) (fs : Fs) (old old' : Cache)
    (h : ((((fs.map Prod.fst).filter endsWithMd).filter
        (fun f => (loadPromptMetadata ext fs f).isSome)).map canonicalName).Nodup) :
    (initializeCache ext fs old).length
      = ((fs.map Prod.fst).filter endsWithMd).length
        - (((fs.map Prod.fst).filter endsWithMd).filter
            (fun f => (loadPromptMetadata ext fs f).isNone)).length ∧
    initializeCache ext fs old = initializeCache ext fs old' := by
  constructor
  · unfold initializeCache
    rw [foldl_update_length ext fs ((fs.map Prod.fst).filter endsWithMd) []
        (fun f hf => (List.mem_filter.mp hf).2) h (fun _ _ _ => rfl),
      length_filter_isSome_isNone]
    simp
  · rfl

/-- A concrete directory: one loadable `.md` file, one unreadable `.md` entry,
one non-`.md` file. -/
def exDir : Fs :=
  [(str "a.md", some (str "x")), (str "b.md", none), (str "c.txt", some (str "y"))]

/-- A concrete non-empty previous cache, fully discarded by `initializeCache`. -/
def exOld : Cache := [(str "z", ⟨str "z", [], str "z..."⟩)]

/-- Witness for C4's amended theorem: 2 `.md` files, 1 unloadable, cache size 1,
and the old index is fully replaced. -/
theorem initializeCache_size_amended_witness :
    (((((exDir.map Prod.fst).filter endsWithMd).filter
        (fun f => (loadPromptMetadata specExtractor exDir f).isSome)).map canonicalName).Nodup) ∧
    ((initializeCache specExtractor exDir exOld).length
      = ((exDir.map Prod.fst).filter endsWithMd).length
        - (((exDir.map Prod.fst).filter endsWithMd).filter
            (fun f => (loadPromptMetadata specExtractor exDir f).isNone)).length ∧
     initializeCache specExtractor exDir exOld = initializeCache specExtractor exDir []) :=
  ⟨by decide, initializeCache_size_amended specExtractor exDir exOld [] (by decide)⟩

end Prompts
